import Mathlib

/-!
Shallow embedding of the e-ink display simulator core: the bitmap font
decoding and text-layout engine together with the packed monochrome image
(XBitmap) decoder.

The source operates on a mutable pixel surface through `drawPixel`; here the
surface effect of every operation is reified as the ordered list of pixel
writes the operation performs (a write trace).  Stateful cursor variables
become explicit state passing: functions that move a cursor return the final
cursor alongside their write trace.  Colors are opaque strings passed
through to the surface unmodified, exactly as in the source.

Glyph records match the GFXglyph structure of the Adafruit GFX library that
the source documents itself against: `offset`, `width`, `height` and
`xAdvance` are unsigned integers, `xOffset` and `yOffset` are signed.
-/

namespace Eink

/-- Colors are opaque CSS color strings; the core never inspects them. -/
abbrev Color := String

/-- A single surface write: a pixel position together with the color
written there. -/
abbrev Write := (Int × Int) × Color

/-- `drawPixel dc x y color` fills the 1-by-1 rectangle at `(x, y)`; in the
trace semantics it is the single write it performs. -/
def drawPixel (x y : Int) (color : Color) : Write :=
  ((x, y), color)

/-- One glyph of a bitmap font, matching the GFXglyph structure: offset into
the font bitmap, pixel width and height, horizontal advance, and the signed
x/y offsets from the cursor position to the top-left drawn pixel. -/
structure GFXGlyph where
  offset : Nat
  width : Nat
  height : Nat
  xAdvance : Nat
  xOffset : Int
  yOffset : Int
  deriving Repr, DecidableEq

/-- A bitmap font, matching the GFXfont structure: raw bitmap bytes, a
sparse mapping from character codes to glyphs, the inclusive code bounds
`first`/`last`, and the line advance. -/
structure GFXFont where
  bitmap : List Nat
  glyphs : Nat → Option GFXGlyph
  first : Nat
  last : Nat
  yAdvance : Nat

/-- Draw a single glyph from a bitmap font at cursor `(x, y)`.  Returns the
write trace together with the horizontal advance.  A missing glyph draws
nothing and advances 0; a zero-width glyph draws nothing and advances
`xAdvance`; otherwise the glyph bits are read row-major, MSB first, from
`font.bitmap` starting at byte `glyph.offset` (the running bit index at row
`row`, column `col` is `row * glyph.width + col`).  A byte index beyond the
bitmap reads as 0, as the bitwise test in the source does on an undefined
element. -/
def drawGlyph (x y : Int) (charCode : Nat) (font : GFXFont) (color : Color) :
    List Write × Nat :=
  match font.glyphs charCode with
  | none => ([], 0)
  | some glyph =>
      if glyph.width = 0 then
        ([], glyph.xAdvance)
      else
        ((List.range glyph.height).flatMap fun row =>
          (List.range glyph.width).filterMap fun col =>
            let bitIndex := row * glyph.width + col
            let byteIndex := glyph.offset + bitIndex / 8
            let bit := 7 - bitIndex % 8
            if Nat.testBit (font.bitmap.getD byteIndex 0) bit then
              some (drawPixel (x + glyph.xOffset + col) (y + glyph.yOffset + row) color)
            else
              none,
          glyph.xAdvance)

/-- Draw a string using a bitmap font with baseline positioning: starting
from `cursorX = x`, each character is drawn at the current cursor and the
cursor advances by the value `drawGlyph` returns.  The result is the write
trace together with the final cursor. -/
def drawText (text : List Nat) (x y : Int) (font : GFXFont) (color : Color) :
    List Write × Int :=
  text.foldl
    (fun acc charCode =>
      let r := drawGlyph acc.2 y charCode font color
      (acc.1 ++ r.1, acc.2 + (r.2 : Int)))
    ([], x)

/-- Width of a text string in pixels: the sum of `xAdvance` over the
characters present in the font; absent characters contribute nothing. -/
def getTextWidth (text : List Nat) (font : GFXFont) : Nat :=
  text.foldl
    (fun width charCode =>
      match font.glyphs charCode with
      | some glyph => width + glyph.xAdvance
      | none => width)
    0

/-- Text bounds: total width, total height, and the minimum and maximum y
offsets from the baseline. -/
structure TextBounds where
  w : Nat
  h : Int
  yMin : Int
  yMax : Int
  deriving Repr, DecidableEq

/-- One step of the `getTextBounds` accumulation over the state
`(width, minY, maxY, first)`: an absent character leaves the state
unchanged; a present glyph adds its advance and, if it is the first present
glyph, initializes `minY`/`maxY` to its top and bottom, otherwise lowers
`minY` and raises `maxY` as the source conditionals do. -/
def boundsStep (font : GFXFont) (s : Nat × Int × Int × Bool) (charCode : Nat) :
    Nat × Int × Int × Bool :=
  match font.glyphs charCode with
  | some glyph =>
      let width := s.1 + glyph.xAdvance
      let top := glyph.yOffset
      let bottom := glyph.yOffset + (glyph.height : Int)
      if s.2.2.2 then
        (width, top, bottom, false)
      else
        (width,
         if top < s.2.1 then top else s.2.1,
         if s.2.2.1 < bottom then bottom else s.2.2.1,
         false)
  | none => s

/-- Text bounds matching the Adafruit GFX getTextBounds behavior: fold the
string through `boundsStep` from the initial state `(0, 0, 0, true)` and
package the result, with `h = maxY - minY`. -/
def getTextBounds (text : List Nat) (font : GFXFont) : TextBounds :=
  let st := text.foldl (boundsStep font) (0, 0, 0, true)
  { w := st.1, h := st.2.2.1 - st.2.1, yMin := st.2.1, yMax := st.2.2.1 }

/-- Look a glyph up by character code; `none` when the character is not in
the font. -/
def getGlyph (font : GFXFont) (charCode : Nat) : Option GFXGlyph :=
  font.glyphs charCode

/-- Whether a font contains a character: the code must lie in
`[first, last]` and have a glyph entry. -/
def hasChar (font : GFXFont) (charCode : Nat) : Bool :=
  decide (font.first ≤ charCode) && decide (charCode ≤ font.last) &&
    (font.glyphs charCode).isSome

/-- Draw text centered horizontally within `width` pixels starting at `x`:
the start position is `x + (width - textW) / 2` with flooring division, as
`Math.floor` in the source. -/
def drawTextCentered (text : List Nat) (x y width : Int) (font : GFXFont)
    (color : Color) : List Write × Int :=
  let textW := getTextWidth text font
  let startX := x + (width - (textW : Int)) / 2
  drawText text startX y font color

/-- Draw text right-aligned so that it ends at `rightX`: the start position
is `rightX - textW`. -/
def drawTextRightAligned (text : List Nat) (rightX y : Int) (font : GFXFont)
    (color : Color) : List Write × Int :=
  let textW := getTextWidth text font
  drawText text (rightX - (textW : Int)) y font color

/-- Draw an XBitmap image: one bit per pixel, row-major with a row stride of
`ceil(w / 8)` bytes, LSB first within each byte.  Only set bits produce a
write; unset bits leave the surface untouched. -/
def drawXBitmap (x y : Int) (bitmap : List Nat) (w h : Nat) (color : Color) :
    List Write :=
  let bytesPerRow := (w + 7) / 8
  (List.range h).flatMap fun row =>
    (List.range w).filterMap fun col =>
      let byteIndex := row * bytesPerRow + col / 8
      let bitIndex := col % 8
      if Nat.testBit (bitmap.getD byteIndex 0) bitIndex then
        some (drawPixel (x + col) (y + row) color)
      else
        none

/-- Draw an XBitmap image scaled to `destW` by `destH` pixels with
nearest-neighbor sampling: destination pixel `(destCol, destRow)` samples
source pixel `(destCol * srcW / destW, destRow * srcH / destH)` with
flooring division.  The destination dimensions are integers so that
non-positive target sizes, for which the source loops run zero times, are
representable; the loop over a non-positive bound is the loop over
`Int.toNat` of it.  The source computes the sample index by flooring
`destCol * (srcW / destW)` in floating point, which agrees with the exact
flooring quotient used here in the configurations considered below
(identity scaling and empty destinations). -/
def drawXBitmapScaled (x y : Int) (bitmap : List Nat) (srcW srcH : Nat)
    (destW destH : Int) (color : Color) : List Write :=
  let bytesPerRow := (srcW + 7) / 8
  (List.range destH.toNat).flatMap fun destRow =>
    (List.range destW.toNat).filterMap fun destCol =>
      let srcCol := destCol * srcW / destW.toNat
      let srcRow := destRow * srcH / destH.toNat
      let byteIndex := srcRow * bytesPerRow + srcCol / 8
      let bitIndex := srcCol % 8
      if Nat.testBit (bitmap.getD byteIndex 0) bitIndex then
        some (drawPixel (x + destCol) (y + destRow) color)
      else
        none

/-- The built-in 5x7 font character data (the default Adafruit GFX font
from glcdfont.c): 5 bytes per character for codes 0x20 to 0x7F, each byte
one pixel column, bit `r` of a byte being the pixel at row `r`. -/
def BUILTIN_5X7_FONT : List Nat :=
  [0x00, 0x00, 0x00, 0x00, 0x00, 0x00, 0x00, 0x5F, 0x00, 0x00,
   0x00, 0x07, 0x00, 0x07, 0x00, 0x14, 0x7F, 0x14, 0x7F, 0x14,
   0x24, 0x2A, 0x7F, 0x2A, 0x12, 0x23, 0x13, 0x08, 0x64, 0x62,
   0x36, 0x49, 0x55, 0x22, 0x50, 0x00, 0x05, 0x03, 0x00, 0x00,
   0x00, 0x1C, 0x22, 0x41, 0x00, 0x00, 0x41, 0x22, 0x1C, 0x00,
   0x08, 0x2A, 0x1C, 0x2A, 0x08, 0x08, 0x08, 0x3E, 0x08, 0x08,
   0x00, 0x50, 0x30, 0x00, 0x00, 0x08, 0x08, 0x08, 0x08, 0x08,
   0x00, 0x60, 0x60, 0x00, 0x00, 0x20, 0x10, 0x08, 0x04, 0x02,
   0x3E, 0x51, 0x49, 0x45, 0x3E, 0x00, 0x42, 0x7F, 0x40, 0x00,
   0x42, 0x61, 0x51, 0x49, 0x46, 0x21, 0x41, 0x45, 0x4B, 0x31,
   0x18, 0x14, 0x12, 0x7F, 0x10, 0x27, 0x45, 0x45, 0x45, 0x39,
   0x3C, 0x4A, 0x49, 0x49, 0x30, 0x01, 0x71, 0x09, 0x05, 0x03,
   0x36, 0x49, 0x49, 0x49, 0x36, 0x06, 0x49, 0x49, 0x29, 0x1E,
   0x00, 0x36, 0x36, 0x00, 0x00, 0x00, 0x56, 0x36, 0x00, 0x00,
   0x00, 0x08, 0x14, 0x22, 0x41, 0x14, 0x14, 0x14, 0x14, 0x14,
   0x41, 0x22, 0x14, 0x08, 0x00, 0x02, 0x01, 0x51, 0x09, 0x06,
   0x32, 0x49, 0x79, 0x41, 0x3E, 0x7E, 0x11, 0x11, 0x11, 0x7E,
   0x7F, 0x49, 0x49, 0x49, 0x36, 0x3E, 0x41, 0x41, 0x41, 0x22,
   0x7F, 0x41, 0x41, 0x22, 0x1C, 0x7F, 0x49, 0x49, 0x49, 0x41,
   0x7F, 0x09, 0x09, 0x01, 0x01, 0x3E, 0x41, 0x41, 0x51, 0x32,
   0x7F, 0x08, 0x08, 0x08, 0x7F, 0x00, 0x41, 0x7F, 0x41, 0x00,
   0x20, 0x40, 0x41, 0x3F, 0x01, 0x7F, 0x08, 0x14, 0x22, 0x41,
   0x7F, 0x40, 0x40, 0x40, 0x40, 0x7F, 0x02, 0x04, 0x02, 0x7F,
   0x7F, 0x04, 0x08, 0x10, 0x7F, 0x3E, 0x41, 0x41, 0x41, 0x3E,
   0x7F, 0x09, 0x09, 0x09, 0x06, 0x3E, 0x41, 0x51, 0x21, 0x5E,
   0x7F, 0x09, 0x19, 0x29, 0x46, 0x46, 0x49, 0x49, 0x49, 0x31,
   0x01, 0x01, 0x7F, 0x01, 0x01, 0x3F, 0x40, 0x40, 0x40, 0x3F,
   0x1F, 0x20, 0x40, 0x20, 0x1F, 0x7F, 0x20, 0x18, 0x20, 0x7F,
   0x63, 0x14, 0x08, 0x14, 0x63, 0x03, 0x04, 0x78, 0x04, 0x03,
   0x61, 0x51, 0x49, 0x45, 0x43, 0x00, 0x00, 0x7F, 0x41, 0x41,
   0x02, 0x04, 0x08, 0x10, 0x20, 0x41, 0x41, 0x7F, 0x00, 0x00,
   0x04, 0x02, 0x01, 0x02, 0x04, 0x40, 0x40, 0x40, 0x40, 0x40,
   0x00, 0x01, 0x02, 0x04, 0x00, 0x20, 0x54, 0x54, 0x54, 0x78,
   0x7F, 0x48, 0x44, 0x44, 0x38, 0x38, 0x44, 0x44, 0x44, 0x20,
   0x38, 0x44, 0x44, 0x48, 0x7F, 0x38, 0x54, 0x54, 0x54, 0x18,
   0x08, 0x7E, 0x09, 0x01, 0x02, 0x08, 0x14, 0x54, 0x54, 0x3C,
   0x7F, 0x08, 0x04, 0x04, 0x78, 0x00, 0x44, 0x7D, 0x40, 0x00,
   0x20, 0x40, 0x44, 0x3D, 0x00, 0x00, 0x7F, 0x10, 0x28, 0x44,
   0x00, 0x41, 0x7F, 0x40, 0x00, 0x7C, 0x04, 0x18, 0x04, 0x78,
   0x7C, 0x08, 0x04, 0x04, 0x78, 0x38, 0x44, 0x44, 0x44, 0x38,
   0x7C, 0x14, 0x14, 0x14, 0x08, 0x08, 0x14, 0x14, 0x18, 0x7C,
   0x7C, 0x08, 0x04, 0x04, 0x08, 0x48, 0x54, 0x54, 0x54, 0x20,
   0x04, 0x3F, 0x44, 0x40, 0x20, 0x3C, 0x40, 0x40, 0x20, 0x7C,
   0x1C, 0x20, 0x40, 0x20, 0x1C, 0x3C, 0x40, 0x30, 0x40, 0x3C,
   0x44, 0x28, 0x10, 0x28, 0x44, 0x0C, 0x50, 0x50, 0x50, 0x3C,
   0x44, 0x64, 0x54, 0x4C, 0x44, 0x00, 0x08, 0x36, 0x41, 0x00,
   0x00, 0x00, 0x7F, 0x00, 0x00, 0x00, 0x41, 0x36, 0x08, 0x00,
   0x08, 0x08, 0x2A, 0x1C, 0x08, 0x08, 0x1C, 0x2A, 0x08, 0x08]

/-- Draw a character using the built-in 5x7 font with top-left positioning.
Codes outside 0x20 to 0x7F draw nothing.  For an in-range code the glyph
occupies 5 consecutive bytes starting at `(code - 0x20) * 5`; each byte is
one pixel column, bit `row` of a byte being the pixel at row `row`. -/
def drawBuiltinChar (x y : Int) (code : Nat) (color : Color) : List Write :=
  if code < 0x20 ∨ 0x7f < code then
    []
  else
    let index := (code - 0x20) * 5
    (List.range 5).flatMap fun col =>
      let column := BUILTIN_5X7_FONT.getD (index + col) 0
      (List.range 7).filterMap fun row =>
        if Nat.testBit column row then
          some (drawPixel (x + col) (y + row) color)
        else
          none

/-- Draw a string using the built-in 5x7 font: every character advances the
cursor by exactly 6 pixels (5 pixel glyph plus 1 pixel spacing), whether or
not it was drawable.  Returns the write trace and the final cursor. -/
def drawBuiltinText (text : List Nat) (x y : Int) (color : Color) :
    List Write × Int :=
  text.foldl
    (fun acc code => (acc.1 ++ drawBuiltinChar acc.2 y code color, acc.2 + 6))
    ([], x)

/-- Width of text in the built-in 5x7 font: 6 pixels per character. -/
def getBuiltinTextWidth (text : List Nat) : Nat :=
  text.length * 6

/-- The per-character advance of the external-font path: `xAdvance` for a
present glyph and 0 for an absent one. -/
def glyphAdvance (font : GFXFont) (charCode : Nat) : Nat :=
  match font.glyphs charCode with
  | some glyph => glyph.xAdvance
  | none => 0

/-- A small concrete font for evaluating the glyph decoder: code 65 maps to
a glyph of width 8, height 1, offset 0, advance 9, x offset 2, y offset -3,
over the one-byte bitmap 0x80 (only the most significant bit set). -/
def exampleFont : GFXFont :=
  { bitmap := [0x80],
    glyphs := fun c => if c = 65 then some ⟨0, 8, 1, 9, 2, -3⟩ else none,
    first := 32, last := 126, yAdvance := 10 }

/-- A small concrete font whose only glyph satisfies
`xOffset + width ≤ xAdvance`: code 65 maps to a glyph of width 1, height 1,
offset 0, advance 2 and zero offsets, over the one-byte bitmap 0x80. -/
def exampleFontAligned : GFXFont :=
  { bitmap := [0x80],
    glyphs := fun c => if c = 65 then some ⟨0, 1, 1, 2, 0, 0⟩ else none,
    first := 32, last := 126, yAdvance := 10 }

/-- A small concrete font with a glyph entry at code 200, outside its
declared `[first, last]` range of `[32, 126]`. -/
def exampleFontOutOfRange : GFXFont :=
  { bitmap := [0x80],
    glyphs := fun c => if c = 200 then some ⟨0, 1, 1, 5, 0, 0⟩ else none,
    first := 32, last := 126, yAdvance := 10 }

/-- `drawGlyph` returns `xAdvance` whenever the glyph exists and 0
otherwise. -/
theorem drawGlyph_snd (x y : Int) (charCode : Nat) (font : GFXFont)
    (color : Color) :
    (drawGlyph x y charCode font color).2 = glyphAdvance font charCode := by
  unfold drawGlyph glyphAdvance
  cases h : font.glyphs charCode with
  | none => rfl
  | some glyph => by_cases hw : glyph.width = 0 <;> simp [hw]

/-- `getTextWidth` is the sum of the per-character advances. -/
theorem getTextWidth_eq_sum (text : List Nat) (font : GFXFont) :
    getTextWidth text font = (text.map (glyphAdvance font)).sum := by
  have h : ∀ (t : List Nat) (n : Nat),
      t.foldl
        (fun width charCode =>
          match font.glyphs charCode with
          | some glyph => width + glyph.xAdvance
          | none => width)
        n
      = n + (t.map (glyphAdvance font)).sum := by
    intro t
    induction t with
    | nil => intro n; simp
    | cons c t ih =>
        intro n
        rw [List.foldl_cons, ih]
        simp only [List.map_cons, List.sum_cons, glyphAdvance]
        cases h : font.glyphs c
        all_goals simp [h]
        all_goals ring
  simpa [getTextWidth] using h text 0

/-- `getTextWidth` over a cons adds the advance of the head character. -/
theorem getTextWidth_cons (c : Nat) (t : List Nat) (font : GFXFont) :
    getTextWidth (c :: t) font = glyphAdvance font c + getTextWidth t font := by
  rw [getTextWidth_eq_sum, getTextWidth_eq_sum, List.map_cons, List.sum_cons]

/-- Unfolding the `drawText` fold from an arbitrary accumulated trace and
cursor. -/
theorem drawText_foldl (y : Int) (font : GFXFont) (color : Color) :
    ∀ (text : List Nat) (ws : List Write) (x : Int),
      text.foldl
        (fun acc charCode =>
          let r := drawGlyph acc.2 y charCode font color
          (acc.1 ++ r.1, acc.2 + (r.2 : Int)))
        (ws, x)
      = (ws ++ (drawText text x y font color).1,
         (drawText text x y font color).2) := by
  intro text
  induction text with
  | nil => intro ws x; simp [drawText]
  | cons c t ih =>
      intro ws x
      simp only [drawText, List.foldl_cons] at *
      rw [ih, ih ([] ++ (drawGlyph x y c font color).1)]
      simp

/-- `drawText` over a cons draws the head glyph at the initial cursor and
the tail at the advanced cursor. -/
theorem drawText_cons (c : Nat) (t : List Nat) (x y : Int) (font : GFXFont)
    (color : Color) :
    drawText (c :: t) x y font color =
      ((drawGlyph x y c font color).1 ++
        (drawText t (x + ((drawGlyph x y c font color).2 : Int)) y font color).1,
       (drawText t (x + ((drawGlyph x y c font color).2 : Int)) y font color).2) := by
  simp only [drawText, List.foldl_cons]
  rw [drawText_foldl]
  simp [drawText]

/-- The final cursor of `drawText` is the start plus `getTextWidth`. -/
theorem drawText_snd (text : List Nat) (x y : Int) (font : GFXFont)
    (color : Color) :
    (drawText text x y font color).2 = x + (getTextWidth text font : Int) := by
  induction text generalizing x with
  | nil => simp [drawText, getTextWidth]
  | cons c t ih =>
      rw [drawText_cons]
      rw [ih, drawGlyph_snd, getTextWidth_cons]
      push_cast
      ring

/-- Characterization of the write trace of `drawGlyph` for a present glyph:
a write is emitted exactly for the set bits of the row-major, MSB-first
glyph bit stream, at the cursor position displaced by the glyph offsets. -/
theorem drawGlyph_mem (x y : Int) (charCode : Nat) (font : GFXFont)
    (color : Color) (g : GFXGlyph) (hg : font.glyphs charCode = some g)
    (w : Write) :
    w ∈ (drawGlyph x y charCode font color).1 ↔
      ∃ row, row < g.height ∧ ∃ col, col < g.width ∧
        Nat.testBit (font.bitmap.getD (g.offset + (row * g.width + col) / 8) 0)
          (7 - (row * g.width + col) % 8) = true ∧
        w = ((x + g.xOffset + (col : Int), y + g.yOffset + (row : Int)), color) := by
  by_cases hw : g.width = 0
  · simp [drawGlyph, hg, hw]
  · simp only [drawGlyph, hg, if_neg hw, List.mem_flatMap, List.mem_filterMap,
      List.mem_range, Option.ite_none_right_eq_some, Option.some.injEq, drawPixel]
    constructor
    · rintro ⟨row, h1, col, h2, h3, h4⟩
      exact ⟨row, h1, col, h2, h3, h4.symm⟩
    · rintro ⟨row, h1, col, h2, h3, h4⟩
      exact ⟨row, h1, col, h2, h3, h4.symm⟩

/-- Claim C2: `drawGlyph` returns advance 0 and writes nothing when the
character has no glyph; it returns `xAdvance` whenever the glyph exists; a
zero-width glyph writes nothing; and otherwise a write of the given color
is emitted at `(x + xOffset + col, y + yOffset + row)` exactly when bit
`7 - (i mod 8)` of byte `offset + i / 8` of the font bitmap is set, where
`i = row * width + col` is the running row-major bit index.  In particular
a glyph of width 8, height 1 and offset 0 over the bitmap [0x80] draws
exactly one pixel, at `(x + xOffset, y + yOffset)`. -/
theorem drawGlyph_correct (x y : Int) (charCode : Nat) (font : GFXFont)
    (color : Color) :
    (font.glyphs charCode = none → drawGlyph x y charCode font color = ([], 0)) ∧
    (∀ g, font.glyphs charCode = some g →
      (drawGlyph x y charCode font color).2 = g.xAdvance ∧
      (g.width = 0 → (drawGlyph x y charCode font color).1 = []) ∧
      (∀ w, w ∈ (drawGlyph x y charCode font color).1 ↔
        ∃ row, row < g.height ∧ ∃ col, col < g.width ∧
          Nat.testBit (font.bitmap.getD (g.offset + (row * g.width + col) / 8) 0)
            (7 - (row * g.width + col) % 8) = true ∧
          w = ((x + g.xOffset + (col : Int), y + g.yOffset + (row : Int)), color))) ∧
    (∀ g, font.glyphs charCode = some g → g.width = 8 → g.height = 1 →
      g.offset = 0 → font.bitmap = [0x80] →
      (drawGlyph x y charCode font color).1 =
        [((x + g.xOffset, y + g.yOffset), color)]) := by
  refine ⟨?_, ?_, ?_⟩
  · intro h
    simp [drawGlyph, h]
  · intro g hg
    refine ⟨?_, ?_, fun w => drawGlyph_mem x y charCode font color g hg w⟩
    · rw [drawGlyph_snd, glyphAdvance, hg]
    · intro h0
      simp [drawGlyph, hg, h0]
  · rintro ⟨off, wd, ht, adv, xo, yo⟩ hg h8 h1 h0 hbm
    simp only at h8 h1 h0
    subst h8 h1 h0
    simp [drawGlyph, hg, hbm, List.range_succ]
    norm_num [List.filterMap_cons, drawPixel,
      show (128 : Nat).testBit 7 = true from by decide,
      show (128 : Nat).testBit 6 = false from by decide,
      show (128 : Nat).testBit 5 = false from by decide,
      show (128 : Nat).testBit 4 = false from by decide,
      show (128 : Nat).testBit 3 = false from by decide,
      show (128 : Nat).testBit 2 = false from by decide,
      show (128 : Nat).testBit 1 = false from by decide,
      show (128 : Nat).testBit 0 = false from by decide]

/-- Witness for claim C2 at the concrete example font. -/
theorem drawGlyph_correct_witness :
    (drawGlyph 10 20 65 exampleFont "B").1 = [((12, 17), "B")] ∧
    (drawGlyph 10 20 65 exampleFont "B").2 = 9 ∧
    drawGlyph 10 20 66 exampleFont "B" = ([], 0) := by
  have h := drawGlyph_correct 10 20 65 exampleFont "B"
  have h2 := drawGlyph_correct 10 20 66 exampleFont "B"
  refine ⟨?_, ?_, ?_⟩
  · have h3 := h.2.2 ⟨0, 8, 1, 9, 2, -3⟩ (by rfl) (by rfl) (by rfl) (by rfl) (by rfl)
    rw [h3]
    norm_num
  · exact (h.2.1 ⟨0, 8, 1, 9, 2, -3⟩ (by rfl)).1
  · exact h2.1 (by rfl)

/-- Claim C1: for every string and font, `getTextWidth` equals the net
cursor displacement of `drawText` (final cursor minus starting `x`), and
both equal the sum over the characters of the per-character advance, which
is `xAdvance` for characters present in the font and 0 for absent ones. -/
theorem getTextWidth_eq_drawText_displacement (text : List Nat) (x y : Int)
    (font : GFXFont) (color : Color) :
    (drawText text x y font color).2 - x = (getTextWidth text font : Int) ∧
    getTextWidth text font = (text.map (glyphAdvance font)).sum := by
  refine ⟨?_, getTextWidth_eq_sum text font⟩
  rw [drawText_snd]
  ring

/-- Claim C3: `drawXBitmap` writes the given color at `(x + col, y + row)`
exactly when bit `col mod 8` (LSB first, the opposite of glyph decoding) of
byte `row * ceil(w/8) + col / 8` is set, for `row < h` and `col < w`; unset
bits produce no write at all, so the surface is untouched there.  In
particular the one-byte image 0x01 of width 8 and height 1 draws exactly
one pixel, at column 0 and not at column 7. -/
theorem drawXBitmap_correct (x y : Int) (bitmap : List Nat) (w h : Nat)
    (color : Color) :
    (∀ wr, wr ∈ drawXBitmap x y bitmap w h color ↔
      ∃ row, row < h ∧ ∃ col, col < w ∧
        Nat.testBit (bitmap.getD (row * ((w + 7) / 8) + col / 8) 0) (col % 8)
          = true ∧
        wr = ((x + (col : Int), y + (row : Int)), color)) ∧
    drawXBitmap x y [0x01] 8 1 color = [((x, y), color)] := by
  constructor
  · intro wr
    simp only [drawXBitmap, List.mem_flatMap, List.mem_filterMap, List.mem_range,
      Option.ite_none_right_eq_some, Option.some.injEq, drawPixel]
    constructor
    · rintro ⟨row, h1, col, h2, h3, h4⟩
      exact ⟨row, h1, col, h2, h3, h4.symm⟩
    · rintro ⟨row, h1, col, h2, h3, h4⟩
      exact ⟨row, h1, col, h2, h3, h4.symm⟩
  · simp [drawXBitmap, List.range_succ]
    norm_num [List.filterMap_cons, drawPixel,
      show (1 : Nat).testBit 0 = true from by decide,
      show (1 : Nat).testBit 1 = false from by decide,
      show (1 : Nat).testBit 2 = false from by decide,
      show (1 : Nat).testBit 3 = false from by decide,
      show (1 : Nat).testBit 4 = false from by decide,
      show (1 : Nat).testBit 5 = false from by decide,
      show (1 : Nat).testBit 6 = false from by decide,
      show (1 : Nat).testBit 7 = false from by decide]

/-- Claim C6: at scale factor 1 the scaled decoder equals the unscaled one:
for positive dimensions, `drawXBitmapScaled` with destination size equal to
source size produces exactly the same write trace as `drawXBitmap`. -/
theorem drawXBitmapScaled_id (bitmap : List Nat) (w h : Nat) (x y : Int)
    (color : Color) (hw : 0 < w) (hh : 0 < h) :
    drawXBitmapScaled x y bitmap w h (w : Int) (h : Int) color =
      drawXBitmap x y bitmap w h color := by
  have hcw : ∀ m : Nat, m * w / w = m := fun m => Nat.mul_div_cancel m hw
  have hch : ∀ m : Nat, m * h / h = m := fun m => Nat.mul_div_cancel m hh
  unfold drawXBitmapScaled drawXBitmap
  simp only [Int.toNat_natCast, hcw, hch]

/-- Witness for claim C6 at a concrete one-byte image. -/
theorem drawXBitmapScaled_id_witness :
    0 < 8 ∧ 0 < 1 ∧
    drawXBitmapScaled 0 0 [1] 8 1 8 1 "B" = drawXBitmap 0 0 [1] 8 1 "B" :=
  ⟨by decide, by decide, drawXBitmapScaled_id [1] 8 1 0 0 "B" (by decide) (by decide)⟩

/-- Claim C9: `drawXBitmapScaled` with a zero or negative destination width
or height performs no write at all: the destination loops run zero times,
so the surface is left unchanged without any caller-side rejection. -/
theorem drawXBitmapScaled_degenerate (x y : Int) (bitmap : List Nat)
    (srcW srcH : Nat) (destW destH : Int) (color : Color)
    (hdeg : destW ≤ 0 ∨ destH ≤ 0) :
    drawXBitmapScaled x y bitmap srcW srcH destW destH color = [] := by
  unfold drawXBitmapScaled
  rcases hdeg with hW | hH
  · simp [Int.toNat_of_nonpos hW]
  · simp [Int.toNat_of_nonpos hH]

/-- Witness for claim C9 at zero destination width. -/
theorem drawXBitmapScaled_degenerate_witness :
    ((0 : Int) ≤ 0 ∨ (5 : Int) ≤ 0) ∧
    drawXBitmapScaled 0 0 [1] 8 1 0 5 "B" = [] :=
  ⟨Or.inl (by decide),
   drawXBitmapScaled_degenerate 0 0 [1] 8 1 0 5 "B" (Or.inl (by decide))⟩

/-- The width component of the bounds fold is the accumulated
`getTextWidth`, from any starting state. -/
theorem boundsStep_foldl_fst (font : GFXFont) :
    ∀ (text : List Nat) (s : Nat × Int × Int × Bool),
      (text.foldl (boundsStep font) s).1 = s.1 + getTextWidth text font := by
  intro text
  induction text with
  | nil => intro s; simp [getTextWidth]
  | cons c t ih =>
      intro s
      rw [List.foldl_cons, ih, getTextWidth_cons]
      cases h : font.glyphs c
      · simp [boundsStep, h, glyphAdvance]
      · by_cases hf : s.2.2.2 <;> simp [boundsStep, h, glyphAdvance, hf] <;> ring

/-- Once the first-glyph flag is cleared, the bounds fold keeps it cleared
and tracks the running minimum of glyph tops and maximum of glyph bottoms
over the present glyphs, while accumulating the width. -/
theorem boundsStep_foldl_false (font : GFXFont) :
    ∀ (text : List Nat) (w : Nat) (m M : Int),
      text.foldl (boundsStep font) (w, m, M, false) =
        (w + getTextWidth text font,
         (text.filterMap font.glyphs).foldl (fun m2 g => min m2 g.yOffset) m,
         (text.filterMap font.glyphs).foldl
           (fun M2 g => max M2 (g.yOffset + (g.height : Int))) M,
         false) := by
  intro text
  induction text with
  | nil => intro w m M; simp [getTextWidth]
  | cons c t ih =>
      intro w m M
      rw [List.foldl_cons]
      cases h : font.glyphs c with
      | none =>
          have hs : boundsStep font (w, m, M, false) c = (w, m, M, false) := by
            simp [boundsStep, h]
          rw [hs, ih, getTextWidth_cons]
          simp [List.filterMap_cons, h, glyphAdvance]
      | some g =>
          have hs : boundsStep font (w, m, M, false) c =
              (w + g.xAdvance,
               if g.yOffset < m then g.yOffset else m,
               if M < g.yOffset + (g.height : Int) then g.yOffset + (g.height : Int)
               else M,
               false) := by
            simp [boundsStep, h]
          have hmin : (if g.yOffset < m then g.yOffset else m) = min m g.yOffset := by
            split <;> omega
          have hmax : (if M < g.yOffset + (g.height : Int) then g.yOffset + (g.height : Int)
              else M) = max M (g.yOffset + (g.height : Int)) := by
            split <;> omega
          rw [hs, hmin, hmax, ih, getTextWidth_cons]
          simp [List.filterMap_cons, h, glyphAdvance]
          ring

/-- A text none of whose characters are present leaves the bounds fold
state unchanged. -/
theorem boundsStep_foldl_none (font : GFXFont) :
    ∀ (text : List Nat), (∀ c ∈ text, font.glyphs c = none) →
      ∀ s, text.foldl (boundsStep font) s = s := by
  intro text
  induction text with
  | nil => intro _ s; rfl
  | cons c t ih =>
      intro h s
      rw [List.foldl_cons]
      have hs : boundsStep font s c = s := by
        simp [boundsStep, h c (by simp)]
      rw [hs]
      exact ih (fun c2 hc2 => h c2 (by simp [hc2])) s

/-- Starting from the initial state, the first present glyph initializes the
running minimum and maximum to its own top and bottom, and the remaining
present glyphs extend them. -/
theorem boundsStep_foldl_true (font : GFXFont) :
    ∀ (text : List Nat) (w : Nat) (g : GFXGlyph) (rest : List GFXGlyph),
      text.filterMap font.glyphs = g :: rest →
      text.foldl (boundsStep font) (w, 0, 0, true) =
        (w + getTextWidth text font,
         rest.foldl (fun m2 g2 => min m2 g2.yOffset) g.yOffset,
         rest.foldl (fun M2 g2 => max M2 (g2.yOffset + (g2.height : Int)))
           (g.yOffset + (g.height : Int)),
         false) := by
  intro text
  induction text with
  | nil => intro w g rest h; simp at h
  | cons c t ih =>
      intro w g rest h
      rw [List.foldl_cons]
      cases hc : font.glyphs c with
      | none =>
          have hs : boundsStep font (w, 0, 0, true) c = (w, 0, 0, true) := by
            simp [boundsStep, hc]
          have hft : t.filterMap font.glyphs = g :: rest := by
            simpa [List.filterMap_cons, hc] using h
          rw [hs, ih w g rest hft, getTextWidth_cons]
          simp [glyphAdvance, hc]
      | some g0 =>
          have hcons : g0 :: t.filterMap font.glyphs = g :: rest := by
            simpa [List.filterMap_cons, hc] using h
          injection hcons with h1 h2
          subst h1
          have hs : boundsStep font (w, 0, 0, true) c =
              (w + g0.xAdvance, g0.yOffset, g0.yOffset + (g0.height : Int), false) := by
            simp [boundsStep, hc]
          rw [hs, boundsStep_foldl_false, h2, getTextWidth_cons]
          simp [glyphAdvance, hc]
          ring

/-- Claim C4: `getTextBounds` returns the `getTextWidth` sum as its width;
`h = yMax - yMin`; a text with no present character (the empty string
included) yields the initial zero bounds rather than an error; and when
present glyphs exist, the first initializes `yMin`/`yMax` to its top
`yOffset` and bottom `yOffset + height` and each later present glyph
extends the running minimum and maximum. -/
theorem getTextBounds_correct (text : List Nat) (font : GFXFont) :
    (getTextBounds text font).w = getTextWidth text font ∧
    (getTextBounds text font).h =
      (getTextBounds text font).yMax - (getTextBounds text font).yMin ∧
    ((∀ c ∈ text, font.glyphs c = none) →
      getTextBounds text font = ⟨0, 0, 0, 0⟩) ∧
    (∀ (g : GFXGlyph) (rest : List GFXGlyph),
      text.filterMap font.glyphs = g :: rest →
      (getTextBounds text font).yMin =
        rest.foldl (fun m2 g2 => min m2 g2.yOffset) g.yOffset ∧
      (getTextBounds text font).yMax =
        rest.foldl (fun M2 g2 => max M2 (g2.yOffset + (g2.height : Int)))
          (g.yOffset + (g.height : Int))) := by
  refine ⟨?_, rfl, ?_, ?_⟩
  · have h := boundsStep_foldl_fst font text (0, 0, 0, true)
    simpa [getTextBounds] using h
  · intro h
    have hst := boundsStep_foldl_none font text h (0, 0, 0, true)
    simp [getTextBounds, hst]
  · intro g rest h
    have hst := boundsStep_foldl_true font text 0 g rest h
    constructor <;> simp [getTextBounds, hst]

/-- Witness for claim C4: a text with no present characters yields the zero
bounds, and a text whose present glyphs are two copies of the example glyph
has its top at -3 and bottom at -2. -/
theorem getTextBounds_correct_witness :
    getTextBounds [1, 2] exampleFont = ⟨0, 0, 0, 0⟩ ∧
    (getTextBounds [65, 66, 65] exampleFont).yMin = -3 ∧
    (getTextBounds [65, 66, 65] exampleFont).yMax = -2 := by
  have h1 := (getTextBounds_correct [1, 2] exampleFont).2.2.1 (by decide)
  have h2 := (getTextBounds_correct [65, 66, 65] exampleFont).2.2.2
    ⟨0, 8, 1, 9, 2, -3⟩ [⟨0, 8, 1, 9, 2, -3⟩] (by decide)
  refine ⟨h1, ?_, ?_⟩
  · rw [h2.1]; decide
  · rw [h2.2]; decide

/-- Unfolding the `drawBuiltinText` fold from an arbitrary accumulated
trace and cursor. -/
theorem drawBuiltinText_foldl (y : Int) (color : Color) :
    ∀ (text : List Nat) (ws : List Write) (x : Int),
      text.foldl
        (fun acc code => (acc.1 ++ drawBuiltinChar acc.2 y code color, acc.2 + 6))
        (ws, x)
      = (ws ++ (drawBuiltinText text x y color).1,
         (drawBuiltinText text x y color).2) := by
  intro text
  induction text with
  | nil => intro ws x; simp [drawBuiltinText]
  | cons c t ih =>
      intro ws x
      simp only [drawBuiltinText, List.foldl_cons] at *
      rw [ih, ih ([] ++ drawBuiltinChar x y c color)]
      simp

/-- `drawBuiltinText` over a cons draws the head character at the initial
cursor and the tail at the cursor advanced by 6. -/
theorem drawBuiltinText_cons (c : Nat) (t : List Nat) (x y : Int)
    (color : Color) :
    drawBuiltinText (c :: t) x y color =
      (drawBuiltinChar x y c color ++ (drawBuiltinText t (x + 6) y color).1,
       (drawBuiltinText t (x + 6) y color).2) := by
  simp only [drawBuiltinText, List.foldl_cons]
  rw [drawBuiltinText_foldl]
  simp [drawBuiltinText]

/-- Claim C5: in the built-in 5x7 font path, any character code outside
0x20 to 0x7F draws nothing, yet `drawBuiltinText` advances the cursor by
exactly 6 pixels per character whether or not the code is drawable, and
`getBuiltinTextWidth` is 6 per character for every string — unlike the
external-font path, where absent glyphs contribute 0 advance. -/
theorem builtinFont_fixed_advance :
    (∀ (x y : Int) (code : Nat) (color : Color), code < 0x20 ∨ 0x7f < code →
      drawBuiltinChar x y code color = []) ∧
    (∀ (text : List Nat) (x y : Int) (color : Color),
      (drawBuiltinText text x y color).2 = x + 6 * (text.length : Int)) ∧
    (∀ (c : Nat) (t : List Nat) (x y : Int) (color : Color),
      drawBuiltinText (c :: t) x y color =
        (drawBuiltinChar x y c color ++ (drawBuiltinText t (x + 6) y color).1,
         (drawBuiltinText t (x + 6) y color).2)) ∧
    (∀ text : List Nat, getBuiltinTextWidth text = text.length * 6) := by
  refine ⟨?_, ?_, drawBuiltinText_cons, fun _ => rfl⟩
  · intro x y code color h
    simp [drawBuiltinChar, h]
  · intro text
    induction text with
    | nil => intro x y color; simp [drawBuiltinText]
    | cons c t ih =>
        intro x y color
        rw [drawBuiltinText_cons, ih]
        simp only [List.length_cons]
        push_cast
        ring

/-- Witness for claim C5: code 200 is outside the printable range, draws
nothing, and still advances the cursor by 6. -/
theorem builtinFont_fixed_advance_witness :
    drawBuiltinChar 0 0 200 "B" = [] ∧
    (drawBuiltinText [200, 33] 0 0 "B").2 = 12 := by
  have h := builtinFont_fixed_advance
  refine ⟨h.1 0 0 200 "B" (Or.inr (by decide)), ?_⟩
  rw [h.2.1 [200, 33] 0 0 "B"]
  decide

/-- Claim C7: `drawTextCentered` renders the text starting at
`x + (width - textWidth) / 2` with flooring division; when the leftover
`width - textWidth` is odd, the right padding exceeds the left padding
`(width - textWidth) / 2` by exactly one pixel. -/
theorem drawTextCentered_correct (text : List Nat) (x y width : Int)
    (font : GFXFont) (color : Color) :
    drawTextCentered text x y width font color =
      drawText text (x + (width - (getTextWidth text font : Int)) / 2) y
        font color ∧
    ((width - (getTextWidth text font : Int)) % 2 = 1 →
      (x + width) -
        ((x + (width - (getTextWidth text font : Int)) / 2) +
          (getTextWidth text font : Int)) =
        (width - (getTextWidth text font : Int)) / 2 + 1) := by
  refine ⟨rfl, ?_⟩
  intro hodd
  omega

/-- Witness for claim C7: width 12 and text width 9 leave an odd leftover
of 3, split as 1 pixel of left padding and 2 of right padding. -/
theorem drawTextCentered_correct_witness :
    drawTextCentered [65] 0 50 12 exampleFont "B" =
      drawText [65] 1 50 exampleFont "B" ∧
    (0 + 12) - ((0 + (12 - (getTextWidth [65] exampleFont : Int)) / 2) +
      (getTextWidth [65] exampleFont : Int)) =
      (12 - (getTextWidth [65] exampleFont : Int)) / 2 + 1 := by
  have h := drawTextCentered_correct [65] 0 50 12 exampleFont "B"
  refine ⟨?_, h.2 (by decide)⟩
  have h1 := h.1
  have h2 : (0 + (12 - (getTextWidth [65] exampleFont : Int)) / 2) = 1 := by decide
  rw [h1, h2]

/-- In a font with no glyph overhang (`xOffset + width ≤ xAdvance` for
every glyph), every pixel drawn by `drawText` from cursor `c` has
x-coordinate at most `c + getTextWidth - 1`. -/
theorem drawText_x_bound (font : GFXFont)
    (hfont : ∀ code g, font.glyphs code = some g →
      g.xOffset + (g.width : Int) ≤ (g.xAdvance : Int)) :
    ∀ (text : List Nat) (c y : Int) (color : Color),
      ∀ w ∈ (drawText text c y font color).1,
        w.1.1 ≤ c + (getTextWidth text font : Int) - 1 := by
  intro text
  induction text with
  | nil => intro c y color w hw; simp [drawText] at hw
  | cons ch t ih =>
      intro c y color w hw
      rw [drawText_cons] at hw
      rcases List.mem_append.mp hw with hw1 | hw2
      · cases hg : font.glyphs ch with
        | none =>
            rw [show drawGlyph c y ch font color = ([], 0) from by
              simp [drawGlyph, hg]] at hw1
            simp at hw1
        | some g =>
            rw [drawGlyph_mem c y ch font color g hg w] at hw1
            obtain ⟨row, hrow, col, hcol, hbit, rfl⟩ := hw1
            have hadv := hfont ch g hg
            have hW : getTextWidth (ch :: t) font =
                g.xAdvance + getTextWidth t font := by
              rw [getTextWidth_cons]
              simp [glyphAdvance, hg]
            have hcol2 : (col : Int) < (g.width : Int) := by exact_mod_cast hcol
            rw [hW]
            push_cast
            omega
      · have hrest := ih (c + ((drawGlyph c y ch font color).2 : Int)) y color w hw2
        rw [drawGlyph_snd] at hrest
        rw [getTextWidth_cons]
        push_cast at hrest ⊢
        omega

/-- Claim C8: for a font in which every glyph satisfies
`xOffset + width ≤ xAdvance`, no pixel drawn by `drawTextRightAligned` has
an x-coordinate exceeding `rightX - 1`. -/
theorem drawTextRightAligned_bound (text : List Nat) (rightX y : Int)
    (font : GFXFont) (color : Color)
    (hfont : ∀ code g, font.glyphs code = some g →
      g.xOffset + (g.width : Int) ≤ (g.xAdvance : Int)) :
    ∀ w ∈ (drawTextRightAligned text rightX y font color).1,
      w.1.1 ≤ rightX - 1 := by
  intro w hw
  have hb := drawText_x_bound font hfont text
    (rightX - (getTextWidth text font : Int)) y color w hw
  omega

/-- Witness for claim C8: in `exampleFontAligned`, right-aligning the text
[65] to `rightX = 100` draws its single pixel at x = 98, within the
`rightX - 1` bound. -/
theorem drawTextRightAligned_bound_witness :
    ((98, 50), "B") ∈ (drawTextRightAligned [65] 100 50 exampleFontAligned "B").1 ∧
    (98 : Int) ≤ 100 - 1 := by
  refine ⟨by decide, ?_⟩
  refine drawTextRightAligned_bound [65] 100 50 exampleFontAligned "B" ?_
    ((98, 50), "B") (by decide)
  intro code g hg
  by_cases hc : code = 65
  · subst hc
    simp [exampleFontAligned] at hg
    subst hg
    decide
  · simp [exampleFontAligned, hc] at hg

/-- Claim C10: `hasChar` is true exactly when the code lies in
`[first, last]` and a glyph entry exists; for a font with a glyph entry at
code 200 outside its declared range [32, 126], `hasChar` is false while
`getGlyph` still returns the glyph and `drawGlyph`/`drawText` still render
it and advance by its `xAdvance` — the range check lives only in
`hasChar`, not in the rendering path. -/
theorem hasChar_range_only (font : GFXFont) (code : Nat) :
    (hasChar font code = true ↔
      font.first ≤ code ∧ code ≤ font.last ∧
        (font.glyphs code).isSome = true) ∧
    hasChar exampleFontOutOfRange 200 = false ∧
    getGlyph exampleFontOutOfRange 200 = some ⟨0, 1, 1, 5, 0, 0⟩ ∧
    (∀ (x y : Int) (color : Color),
      (drawGlyph x y 200 exampleFontOutOfRange color).2 = 5 ∧
      (drawGlyph x y 200 exampleFontOutOfRange color).1 = [((x, y), color)] ∧
      (drawText [200] x y exampleFontOutOfRange color).2 = x + 5) := by
  refine ⟨?_, by decide, rfl, ?_⟩
  · simp [hasChar, Bool.and_eq_true, decide_eq_true_eq, and_assoc]
  · intro x y color
    refine ⟨?_, ?_, ?_⟩
    · rw [drawGlyph_snd]
      simp [glyphAdvance, exampleFontOutOfRange]
    · simp [drawGlyph, exampleFontOutOfRange, List.range_succ,
        show (128 : Nat).testBit 7 = true from by decide, drawPixel]
    · rw [drawText_snd]
      norm_num [getTextWidth, exampleFontOutOfRange]

end Eink
